import Mathlib

/-!
Verification development for zsdl.py, a resumable downloader that derives a
direct download link from an obfuscated formula embedded in a storage page.

The Python source (src/zsdl.py) is shallowly embedded below:
* the link-derivation parser (`Main.parse_storage`, `Main.js_decode` and the
  fixed script-template regex) as pure functions over character lists,
* the resumable download engine (`Main.request_download`) as a function from
  an abstract response environment to a trace of actions (progress events,
  the HTTP request with its headers, file writes) plus an outcome,
* the orchestrator (`Main.download`) as a state transformer over an abstract
  file-system map from paths to file sizes.

Python standard-library collaborators (the HTML tokenizer, `json.loads` on
the literal subset reachable here, `urllib.parse` path extraction and percent
decoding, `os.path.join`, `int()` parsing) are modelled to their documented
behavior on the inputs this program can produce; RFC-2822 date parsing
(`email.utils`) is passed in as a parameter.
-/

/-! ### Character utilities (Python semantics, ASCII fragment) -/

/-- Whitespace for Python `str.strip()` and the regex class `\s`
(ASCII fragment: TAB..CR, FS..US, SPACE). -/
def pyWS (c : Char) : Bool :=
  c.toNat = 32 || (9 ≤ c.toNat && c.toNat ≤ 13) || (28 ≤ c.toNat && c.toNat ≤ 31)

/-- Python `str.strip()` with no argument: drop whitespace at both ends. -/
def pyStrip (s : String) : String :=
  String.mk (((s.toList.dropWhile pyWS).reverse.dropWhile pyWS).reverse)

/-- ASCII lowercasing of one character (`str.lower()` on tag names). -/
def charLower (c : Char) : Char :=
  if 65 ≤ c.toNat && c.toNat ≤ 90 then Char.ofNat (c.toNat + 32) else c

/-- `str.lower()` (ASCII model, tag names are ASCII). -/
def strLower (s : String) : String := String.mk (s.toList.map charLower)

/-- Python `str.split(sep)` for a one-character separator: all segments,
empty ones included; never returns an empty list. -/
def splitOnChar (sep : Char) : List Char → List (List Char)
  | [] => [[]]
  | c :: rest =>
      let r := splitOnChar sep rest
      if c = sep then [] :: r
      else
        match r with
        | h :: t => (c :: h) :: t
        | [] => [[c]]

/-- ASCII hexadecimal digit test. -/
def isHexC (c : Char) : Bool :=
  c.isDigit || ('a' ≤ c && c ≤ 'f') || ('A' ≤ c && c ≤ 'F')

/-- Value of one hexadecimal digit. -/
def hexValC (c : Char) : Nat :=
  if c.isDigit then c.toNat - 48
  else if 'a' ≤ c && c ≤ 'f' then c.toNat - 87
  else c.toNat - 55

/-! ### The fixed script-template regular expression

`TheHTMLParser.jsreg` in the source is

  var\s+a\s*=\s*(\d+);[\s\S]*
  \.\s*omg\s*=\s*("[^\r\n]*")\s*\.\s*substr\s*\(\s*(\d+)\s*,\s*(\d+)\s*\)\s*;[\s\S]*
  \.href\s*=\s*("[^\r\n]*")\s*\+\s*
  \(\s*Math\s*.\s*pow\s*\(\s*a\s*,\s*(\d+)\s*\)\s*\+\s*b\s*\)\s*\+\s*
  ("[^\r\n]*")\s*;

applied with `re.match` (anchored at the start, trailing text allowed).  The
pattern has no alternation and every quantifier governs a one-character
class, so it is embedded as a token list with a greedy backtracking matcher
mirroring Python's leftmost-greedy semantics.  The unescaped `.` after
`Math\s*` matches any character except a newline (no DOTALL flag). -/

/-- Character classes appearing in the template regex. -/
inductive CClass
  | ws        -- \s
  | digit     -- \d
  | notCRLF   -- [^\r\n]
  | anyNotNL  -- . (no DOTALL)
  | anyCh     -- [\s\S]
deriving DecidableEq

/-- Membership in a character class. -/
def CClass.memb : CClass → Char → Bool
  | .ws, c => pyWS c
  | .digit, c => c.isDigit
  | .notCRLF, c => c != '\r' && c != '\n'
  | .anyNotNL, c => c != '\n'
  | .anyCh, _ => true

/-- Regex tokens: a literal character, one occurrence of a class, a greedy
Kleene star of a class, and capture-group delimiters. -/
inductive RTok
  | lit (c : Char)
  | one (k : CClass)
  | star (k : CClass)
  | gopen
  | gclose
deriving DecidableEq

/-- Push a character onto the currently open capture group, if any. -/
def pushCur (cur : Option (List Char)) (d : Char) : Option (List Char) :=
  cur.map (fun l => d :: l)

/-- Greedy backtracking matcher, anchored at the start of `cs`; trailing
characters are allowed once all tokens are consumed (Python `re.match`).
Returns the captured groups in order of appearance.  `cur` is the open
group (characters reversed), `acc` the completed groups (reversed).
The recursion decreases the measure `cs.length * (T + 1) + ts.length`
lexicographically (the token list never grows, `T` bounds its length), so
the structural fuel supplied by `rmatch` below can never run out. -/
def rmatchF : Nat → List RTok → List Char → Option (List Char) →
    List (List Char) → Option (List (List Char))
  | 0, _, _, _, _ => none
  | fuel + 1, ts, cs, cur, acc =>
    match ts, cs with
    | [], _ => some acc.reverse
    | .lit c :: ts', d :: cs' =>
        if c == d then rmatchF fuel ts' cs' (pushCur cur d) acc else none
    | .lit _ :: _, [] => none
    | .one k :: ts', d :: cs' =>
        if k.memb d then rmatchF fuel ts' cs' (pushCur cur d) acc else none
    | .one _ :: _, [] => none
    | .star k :: ts', d :: cs' =>
        if k.memb d then
          match rmatchF fuel (.star k :: ts') cs' (pushCur cur d) acc with
          | some r => some r
          | none => rmatchF fuel ts' (d :: cs') cur acc
        else rmatchF fuel ts' (d :: cs') cur acc
    | .star _ :: ts', [] => rmatchF fuel ts' [] cur acc
    | .gopen :: ts', cs2 => rmatchF fuel ts' cs2 (some []) acc
    | .gclose :: ts', cs2 => rmatchF fuel ts' cs2 none (((cur.getD []).reverse) :: acc)

/-- The matcher with adequate fuel for its lexicographic measure. -/
def rmatch (ts : List RTok) (cs : List Char) (cur : Option (List Char))
    (acc : List (List Char)) : Option (List (List Char)) :=
  rmatchF (cs.length * (ts.length + 1) + ts.length + 1) ts cs cur acc

/-- Literal characters of a string as regex tokens. -/
def lits (s : String) : List RTok := s.toList.map RTok.lit

/-- `\s*` -/
def wsS : List RTok := [.star .ws]

/-- `\s+` -/
def wsP : List RTok := [.one .ws, .star .ws]

/-- `(\d+)` -/
def dgrp : List RTok := [.gopen, .one .digit, .star .digit, .gclose]

/-- `("[^\r\n]*")` -/
def qgrp : List RTok := [.gopen, .lit '"', .star .notCRLF, .lit '"', .gclose]

/-- `[\s\S]*` -/
def anyS : List RTok := [.star .anyCh]

/-- Token form of `TheHTMLParser.jsreg` (see the block comment above). -/
def jsregToks : List RTok :=
  lits "var" ++ wsP ++ lits "a" ++ wsS ++ lits "=" ++ wsS ++ dgrp ++ lits ";" ++
  anyS ++
  lits "." ++ wsS ++ lits "omg" ++ wsS ++ lits "=" ++ wsS ++ qgrp ++ wsS ++
  lits "." ++ wsS ++ lits "substr" ++ wsS ++ lits "(" ++ wsS ++ dgrp ++ wsS ++
  lits "," ++ wsS ++ dgrp ++ wsS ++ lits ")" ++ wsS ++ lits ";" ++
  anyS ++
  lits ".href" ++ wsS ++ lits "=" ++ wsS ++ qgrp ++ wsS ++ lits "+" ++ wsS ++
  lits "(" ++ wsS ++ lits "Math" ++ wsS ++ [.one .anyNotNL] ++ wsS ++
  lits "pow" ++ wsS ++ lits "(" ++ wsS ++ lits "a" ++ wsS ++ lits "," ++ wsS ++
  dgrp ++ wsS ++ lits ")" ++ wsS ++ lits "+" ++ wsS ++ lits "b" ++ wsS ++
  lits ")" ++ wsS ++ lits "+" ++ wsS ++
  qgrp ++ wsS ++ lits ";"

/-- The seven captured template fields, as raw strings
(`TheHTMLParser.handle_data` stores `m.group(1)` .. `m.group(7)`). -/
structure JsData where
  a : String
  str : String
  substr_start : String
  substr_length : String
  url_head : String
  power : String
  url_tail : String
deriving DecidableEq

/-- `jsreg.match(src)` followed by extraction of the seven groups. -/
def jsregMatch (s : String) : Option JsData :=
  match rmatch jsregToks s.toList none [] with
  | some [g1, g2, g3, g4, g5, g6, g7] =>
      some ⟨String.mk g1, String.mk g2, String.mk g3, String.mk g4,
            String.mk g5, String.mk g6, String.mk g7⟩
  | _ => none

/-! ### The HTML scan (`TheHTMLParser`)

The Python stdlib `HTMLParser` tokenizer is an external collaborator: it
delivers start-tag / end-tag / text events to the handler methods.  The
handler state is `script` (set by `handle_starttag` on every start tag) and
`jsdata` (overwritten by `handle_data` on every regex match). -/

/-- HTML tokenizer events delivered to the handler. -/
inductive HEvent
  | startTag (tag : String)
  | endTag (tag : String)
  | text (data : String)
deriving DecidableEq

/-- Handler state of `TheHTMLParser`. -/
structure PState where
  script : Bool
  jsdata : Option JsData
deriving DecidableEq

/-- One handler step: `handle_starttag` sets `script := tag.lower() == 'script'`;
`handle_endtag` is not overridden (no-op); `handle_data` matches the stripped
text against the template when `script` is set and overwrites `jsdata`. -/
def handleEvent (st : PState) : HEvent → PState
  | .startTag t => { st with script := strLower t == "script" }
  | .endTag _ => st
  | .text d =>
      if st.script then
        match jsregMatch (pyStrip d) with
        | some g => { st with jsdata := some g }
        | none => st
      else st

/-- Feeding the whole document: `parser.feed(html)` from the initial state. -/
def runParser (evs : List HEvent) : PState :=
  evs.foldl handleEvent ⟨false, none⟩

/-- The template matches produced while scanning `evs` with initial script
flag `b`, in document order.  `handle_data` overwrites `jsdata` with each
element of this list in turn. -/
def matchSets (b : Bool) : List HEvent → List JsData
  | [] => []
  | .startTag t :: r => matchSets (strLower t == "script") r
  | .endTag _ :: r => matchSets b r
  | .text d :: r =>
      if b then
        match jsregMatch (pyStrip d) with
        | some g => g :: matchSets b r
        | none => matchSets b r
      else matchSets b r

/-! ### Hex-escape decoding (`Main.js_decode`)

`js_decode` first runs `re.sub(r'(^|[^\\])(\\\\)*\\x[0-9A-Fa-f]{2}', repl, s)`
where `repl` splits the whole match on the two-character text `\x` and
replaces the hex pair by `json.dumps(chr(int(hh, 16)))[1:-1]`, then parses
the result with `json.loads`.  `re.sub` scans left to right and resumes
after the end of each replacement. -/

/-- Match `\xHH` at the head of the input; returns the decoded code point
and the rest. -/
def tryX : List Char → Option (Nat × List Char)
  | '\\' :: 'x' :: h1 :: h2 :: rest =>
      if isHexC h1 && isHexC h2 then some (16 * hexValC h1 + hexValC h2, rest)
      else none
  | _ => none

/-- Match `(\\\\)*\\x[0-9A-Fa-f]{2}` at the head of the input, greedily and
with backtracking as the regex engine does: prefer consuming another pair of
backslashes, fall back to `\xHH` at the current position.  Returns the
consumed backslash pairs, the code point, and the rest. -/
def pairsThen : List Char → Option (List Char × Nat × List Char)
  | '\\' :: '\\' :: cs =>
      match pairsThen cs with
      | some (bs, h, r) => some ('\\' :: '\\' :: bs, h, r)
      | none =>
          match tryX ('\\' :: '\\' :: cs) with
          | some (h, r) => some ([], h, r)
          | none => none
  | cs =>
      match tryX cs with
      | some (h, r) => some ([], h, r)
      | none => none

/-- Attempt the whole pattern `(^|[^\\])(\\\\)*\\x[0-9A-Fa-f]{2}` at the
current position.  The `^` branch is tried first (alternation order) and only
applies at the very start of the subject.  Returns the part of the match
before `\x` (prefix character plus backslash pairs, i.e. `p[0]` of the
`repl` split), the code point, and the rest. -/
def jsSubMatchAt (atStart : Bool) (cs : List Char) :
    Option (List Char × Nat × List Char) :=
  match (if atStart then pairsThen cs else none) with
  | some (bs, hh, r) => some (bs, hh, r)
  | none =>
      match cs with
      | c :: rest =>
          if c != '\\' then
            match pairsThen rest with
            | some (bs, hh, r) => some (c :: bs, hh, r)
            | none => none
          else none
      | [] => none

theorem tryX_length : ∀ {cs : List Char} {h : Nat} {r : List Char},
    tryX cs = some (h, r) → r.length + 4 = cs.length := by
  intro cs h r hx
  unfold tryX at hx
  split at hx
  · split at hx
    · cases hx; simp
    · cases hx
  · cases hx

theorem pairsThen_length_bounded : ∀ (n : Nat) (cs : List Char), cs.length ≤ n →
    ∀ {bs : List Char} {hh : Nat} {r : List Char},
    pairsThen cs = some (bs, hh, r) → bs.length + r.length + 4 = cs.length := by
  intro n
  induction n with
  | zero =>
    intro cs hle bs hh r hp
    have : cs = [] := List.eq_nil_of_length_eq_zero (Nat.le_zero.mp hle)
    subst this
    unfold pairsThen at hp
    simp [tryX] at hp
  | succ n ih =>
    intro cs hle bs hh r hp
    unfold pairsThen at hp
    split at hp
    · rename_i cs''
      cases hmatch : pairsThen cs'' with
      | some t =>
        obtain ⟨bs', h', r'⟩ := t
        rw [hmatch] at hp
        simp only at hp
        cases hp
        simp only [List.length_cons] at hle ⊢
        have := ih cs'' (by omega) hmatch
        omega
      | none =>
        rw [hmatch] at hp
        simp only at hp
        cases hx : tryX ('\\' :: '\\' :: cs'') with
        | some p =>
          obtain ⟨h2, r2⟩ := p
          rw [hx] at hp
          simp only at hp
          cases hp
          have := tryX_length hx
          simp only [List.length_cons, List.length_nil] at this ⊢
          omega
        | none =>
          rw [hx] at hp
          simp at hp
    · cases hx : tryX cs with
      | some p =>
        obtain ⟨h2, r2⟩ := p
        rw [hx] at hp
        simp only at hp
        cases hp
        have := tryX_length hx
        simp only [List.length_nil]
        omega
      | none =>
        rw [hx] at hp
        simp at hp

theorem pairsThen_length (cs : List Char) {bs : List Char} {hh : Nat} {r : List Char}
    (hp : pairsThen cs = some (bs, hh, r)) : bs.length + r.length + 4 = cs.length :=
  pairsThen_length_bounded cs.length cs (Nat.le_refl _) hp

theorem jsSubMatchAt_length : ∀ {b : Bool} {cs p0 : List Char} {hh : Nat} {r : List Char},
    jsSubMatchAt b cs = some (p0, hh, r) → r.length < cs.length := by
  intro b cs p0 hh r hm
  unfold jsSubMatchAt at hm
  split at hm
  · rename_i bs' hh' r' heq
    cases hm
    split at heq
    · have := pairsThen_length _ heq
      omega
    · cases heq
  · split at hm
    · split at hm
      · split at hm
        · rename_i bs' hh' r' hp
          cases hm
          have := pairsThen_length _ hp
          simp only [List.length_cons]
          omega
        · cases hm
      · cases hm
    · cases hm

/-- One hexadecimal digit, lowercase (as `json.dumps` emits in `\uXXXX`). -/
def hexDigitL (n : Nat) : Char :=
  if n < 10 then Char.ofNat (48 + n) else Char.ofNat (87 + n)

/-- `json.dumps(chr(n))[1:-1]` with default `ensure_ascii=True`: the named
escapes, `\u00xx` for other control characters, `\uxxxx` for anything
outside printable ASCII, the character itself otherwise. -/
def jsonDumpChar (n : Nat) : List Char :=
  if n = 34 then ['\\', '"']
  else if n = 92 then ['\\', '\\']
  else if n = 8 then ['\\', 'b']
  else if n = 12 then ['\\', 'f']
  else if n = 10 then ['\\', 'n']
  else if n = 13 then ['\\', 'r']
  else if n = 9 then ['\\', 't']
  else if n < 32 || 127 ≤ n then
    ['\\', 'u', hexDigitL (n / 4096 % 16), hexDigitL (n / 256 % 16),
     hexDigitL (n / 16 % 16), hexDigitL (n % 16)]
  else [Char.ofNat n]

/-- The `re.sub` scan of `js_decode`: at each position try the pattern; on a
match emit `p[0]` (prefix and backslash pairs) followed by the re-escaped
decoded character, and resume after the match; otherwise copy one character.
`^` can only match at the very start of the subject.  Every step consumes at
least one character (`jsSubMatchAt_length`), so fuel equal to the length of
the input never runs out. -/
def jsSubGoF : Nat → Bool → List Char → List Char
  | 0, _, _ => []
  | fuel + 1, atStart, cs =>
    match cs with
    | [] => []
    | c :: cs' =>
      match jsSubMatchAt atStart (c :: cs') with
      | some (p0, hh, rest) => p0 ++ jsonDumpChar hh ++ jsSubGoF fuel false rest
      | none => c :: jsSubGoF fuel false cs'

/-- The full `re.sub(r'(^|[^\\])(\\\\)*\\x[0-9A-Fa-f]{2}', repl, s)`. -/
def js_sub (s : String) : String :=
  String.mk (jsSubGoF s.toList.length true s.toList)

/-! ### JSON literal parsing (`Main.json_decode` = `json.loads`)

The seven regex groups are digit strings or double-quoted single-line
strings, so `json.loads` is modelled on integer and string literals (with
strict escape handling); every other JSON form is unreachable from the
template and maps to an error, as do the genuinely invalid inputs. -/

/-- Values of the modelled JSON fragment. -/
inductive JsonVal
  | int (n : Int)
  | str (s : String)
deriving DecidableEq

/-- JSON whitespace accepted around a top-level value by `json.loads`. -/
def jsonWS (c : Char) : Bool :=
  c = ' ' || c = '\t' || c = '\n' || c = '\r'

/-- Body of a JSON string literal after the opening quote: returns the
decoded content and the input after the closing quote.  Strict mode: raw
control characters and unknown escapes are errors; `\uXXXX` decodes a hex
scalar (surrogate halves are outside the modelled fragment). -/
def parseJStr : List Char → Option (List Char × List Char)
  | [] => none
  | '"' :: rest => some ([], rest)
  | '\\' :: e :: rest =>
      match e with
      | '"' => (parseJStr rest).map (fun p => ('"' :: p.1, p.2))
      | '\\' => (parseJStr rest).map (fun p => ('\\' :: p.1, p.2))
      | '/' => (parseJStr rest).map (fun p => ('/' :: p.1, p.2))
      | 'b' => (parseJStr rest).map (fun p => (Char.ofNat 8 :: p.1, p.2))
      | 'f' => (parseJStr rest).map (fun p => (Char.ofNat 12 :: p.1, p.2))
      | 'n' => (parseJStr rest).map (fun p => ('\n' :: p.1, p.2))
      | 'r' => (parseJStr rest).map (fun p => (Char.ofNat 13 :: p.1, p.2))
      | 't' => (parseJStr rest).map (fun p => ('\t' :: p.1, p.2))
      | 'u' =>
          match rest with
          | h1 :: h2 :: h3 :: h4 :: rest' =>
              if isHexC h1 && isHexC h2 && isHexC h3 && isHexC h4 then
                let n := ((hexValC h1 * 16 + hexValC h2) * 16 + hexValC h3) * 16 + hexValC h4
                if 55296 ≤ n && n ≤ 57343 then none
                else (parseJStr rest').map (fun p => (Char.ofNat n :: p.1, p.2))
              else none
          | _ => none
      | _ => none
  | c :: rest =>
      if c.toNat < 32 then none
      else (parseJStr rest).map (fun p => (c :: p.1, p.2))

/-- Digits of a JSON integer part: `0` alone or a nonzero digit followed by
digits.  Returns the value and the rest. -/
def parseJIntDigits : List Char → Option (Nat × List Char)
  | '0' :: rest => some (0, rest)
  | c :: rest =>
      if '1' ≤ c && c ≤ '9' then
        let ds := rest.takeWhile Char.isDigit
        some (ds.foldl (fun acc d => acc * 10 + (d.toNat - 48)) (c.toNat - 48),
              rest.dropWhile Char.isDigit)
      else none
  | [] => none

/-- A JSON number restricted to integers: optional minus sign, integer part,
and no fraction or exponent (which would produce a float, unreachable from
the digit-only template groups). -/
def parseJNum (cs : List Char) : Option (Int × List Char) :=
  match cs with
  | '-' :: rest =>
      match parseJIntDigits rest with
      | some (n, rest') =>
          match rest' with
          | c :: _ => if c = '.' || c = 'e' || c = 'E' then none else some (-(n : Int), rest')
          | [] => some (-(n : Int), [])
      | none => none
  | _ =>
      match parseJIntDigits cs with
      | some (n, rest') =>
          match rest' with
          | c :: _ => if c = '.' || c = 'e' || c = 'E' then none else some ((n : Int), rest')
          | [] => some ((n : Int), [])
      | none => none

/-- `Main.json_decode` = `json.loads` on the modelled fragment: optional
whitespace, one string or integer literal, optional whitespace, end. -/
def json_decode (s : String) : Except Unit JsonVal :=
  let cs := s.toList.dropWhile jsonWS
  match cs with
  | '"' :: rest =>
      match parseJStr rest with
      | some (content, rest') =>
          if rest'.dropWhile jsonWS = [] then .ok (.str (String.mk content))
          else .error ()
      | none => .error ()
  | _ =>
      match parseJNum cs with
      | some (n, rest') =>
          if rest'.dropWhile jsonWS = [] then .ok (.int n)
          else .error ()
      | none => .error ()

/-- `Main.js_decode`: hex-escape substitution, then JSON decoding. -/
def js_decode (s : String) : Except Unit JsonVal := json_decode (js_sub s)

instance {ε α : Type} [DecidableEq ε] [DecidableEq α] : DecidableEq (Except ε α) := fun a b =>
  match a, b with
  | .error e1, .error e2 =>
      if h : e1 = e2 then isTrue (by rw [h])
      else isFalse (by intro hc; cases hc; exact h rfl)
  | .error e1, .ok a2 => isFalse (by intro hc; cases hc)
  | .ok a1, .error e2 => isFalse (by intro hc; cases hc)
  | .ok a1, .ok a2 =>
      if h : a1 = a2 then isTrue (by rw [h])
      else isFalse (by intro hc; cases hc; exact h rfl)

/-! ### URL helpers (`urllib.parse` collaborators)

`parse_storage` computes `name` as
`urlunquote(urlparse(href).path).split('/').pop()`.  `urlparse` and
`unquote` are stdlib collaborators, modelled on their documented behavior:
path extraction strips an RFC-3986 scheme, an authority introduced by `//`,
and the query/fragment; percent decoding is modelled on the ASCII range
(multi-byte UTF-8 percent sequences do not occur in the hrefs this program
derives). -/

/-- A character allowed in a URL scheme (letters, digits, `+`, `-`, `.`). -/
def schemeChar (c : Char) : Bool :=
  c.isAlpha || c.isDigit || c = '+' || c = '-' || c = '.'

/-- Strip a leading `scheme:` if the text before the first colon is a valid
nonempty scheme starting with a letter. -/
def dropScheme (cs : List Char) : List Char :=
  match cs.findIdx? (fun c => c = ':') with
  | some i =>
      if 0 < i && (cs.take i).all schemeChar &&
          (match cs with | c :: _ => c.isAlpha | [] => false) then
        cs.drop (i + 1)
      else cs
  | none => cs

/-- Strip a leading `//authority` (the authority ends at `/`, `?` or `#`,
which stays in the path/query/fragment). -/
def dropNetloc : List Char → List Char
  | '/' :: '/' :: rest => rest.dropWhile (fun c => c != '/' && c != '?' && c != '#')
  | cs => cs

/-- `urlparse(href).path`. -/
def urlparsePath (url : String) : String :=
  String.mk ((dropNetloc (dropScheme url.toList)).takeWhile (fun c => c != '?' && c != '#'))

/-- Percent decoding scan for `unquote` (ASCII model): `%HH` with two hex
digits becomes the character with that code, anything else is copied. -/
def unquoteGo : List Char → List Char
  | [] => []
  | '%' :: h1 :: h2 :: rest =>
      if isHexC h1 && isHexC h2 then
        Char.ofNat (16 * hexValC h1 + hexValC h2) :: unquoteGo rest
      else '%' :: unquoteGo (h1 :: h2 :: rest)
  | c :: rest => c :: unquoteGo rest

/-- `urllib.parse.unquote` (ASCII model). -/
def urlunquote (s : String) : String := String.mk (unquoteGo s.toList)

/-- `s.split('/').pop()`: last element of the split (the split list is never
empty for Python `str.split` with a separator). -/
def lastSegment (s : String) : String :=
  String.mk ((splitOnChar '/' s.toList).getLastD [])

/-! ### Link derivation (`Main.parse_storage`) -/

/-- Python `str()` of a decoded JSON value, as used by the `'%s%s%s'`
formatting that builds the href. -/
def pyStr : JsonVal → String
  | .int n => toString n
  | .str s => s

/-- Ways `parse_storage` can raise. -/
inductive PErr
  | noMatch     -- jsdata is None: subscripting raises TypeError
  | decodeErr   -- js_decode raised on a captured group
  | typeErr     -- a decoded field has the wrong type for len/pow/min/-
  | negPow      -- pow with negative exponent (unreachable: groups are \d+)
deriving DecidableEq

/-- The derived link. -/
structure DerivedLink where
  href : String
  name : String
deriving DecidableEq

/-- The arithmetic-and-formatting tail of `parse_storage`, applied to the
captured fields: decode every group, compute
`min(len(str) - start, length)`, `pow(a, power) + b`, build the href and
derive the name from the percent-decoded path.  A negative decoded exponent
would make Python's `pow` return a float; the template groups are digit-only
so this cannot occur, and it is mapped to an error here. -/
def deriveFromGroups (d : JsData) : Except PErr DerivedLink :=
  match js_decode d.a, js_decode d.str, js_decode d.substr_start,
        js_decode d.substr_length, js_decode d.url_head, js_decode d.power,
        js_decode d.url_tail with
  | .ok ja, .ok jstr, .ok jst, .ok jln, .ok jhd, .ok jpw, .ok jtl =>
      match ja, jstr, jst, jln, jpw with
      | .int av, .str sv, .int st, .int ln, .int pw =>
          if 0 ≤ pw then
            let b : Int := min ((sv.length : Int) - st) ln
            let computed : Int := av ^ pw.toNat + b
            let href := pyStr jhd ++ toString computed ++ pyStr jtl
            .ok ⟨href, lastSegment (urlunquote (urlparsePath href))⟩
          else .error .negPow
      | _, _, _, _, _ => .error .typeErr
  | _, _, _, _, _, _, _ => .error .decodeErr

/-- `Main.parse_storage`: feed the document events through `TheHTMLParser`,
then evaluate the captured template fields.  If no script text matched,
`jsdata` is `None` and the field accesses raise. -/
def parse_storage (evs : List HEvent) : Except PErr DerivedLink :=
  match (runParser evs).jsdata with
  | some d => deriveFromGroups d
  | none => .error .noMatch

/-! ### The resumable download engine (`Main.request_download`)

The engine is embedded as a function from an abstract HTTP response to a
trace of actions — progress-event emissions, the single HTTP request with
the header dict it sends, and file writes — plus the number of bytes
written and the outcome.  The response supplies the status code, the raw
`content-length` and `last-modified` header values, and the successive
chunk sizes returned by `res.read(buffer_size)` (the stream then yields
empty reads).  Wall-clock times carried by the Python progress calls are
not modelled; event order is.  RFC-2822 date parsing (`parsedate_tz` and
`mktime_tz`) is a parameter: `none` models a value `parsedate_tz` rejects,
on which `mktime_tz(None)` raises. -/

/-- The four progress states (`DL_PROGRESS_*`). -/
inductive EvKind
  | start
  | read
  | wrote
  | done
deriving DecidableEq

/-- One progress callback invocation: `progress(kind, start, now, offset,
added, current, total)` without the two wall-clock times. -/
structure PEvent where
  kind : EvKind
  offset : Nat
  delta : Nat
  current : Nat
  total : Option Int
deriving DecidableEq

/-- Observable actions of one `request_download` call, in order. -/
inductive Act
  | emit (e : PEvent)
  | request (headers : List (String × String))
  | fwrite (n : Nat)
deriving DecidableEq

/-- The emitted progress events of a trace. -/
def emits (tr : List Act) : List PEvent :=
  tr.filterMap (fun a => match a with | .emit e => some e | _ => none)

/-- An abstract HTTP response for one request. -/
structure Resp where
  code : Nat
  contentLength : Option String
  lastModified : Option String
  chunks : List Nat
deriving DecidableEq

/-- Errors `request_download` can raise. -/
inductive DLErr
  | status   -- assert_status_code failed
  | date     -- mktime_tz raised on an unparseable last-modified value
deriving DecidableEq

/-- The dict returned by a completed `request_download`
(`{'size': total, 'modified': modified}`). -/
structure DLResult where
  size : Option Int
  modified : Option Int
deriving DecidableEq

/-- Python `int(s)` on a string: optional surrounding whitespace, optional
sign, base-10 digits with optional single underscores between digits. -/
def pyIntDigits (acc : Nat) : List Char → Option Nat
  | [] => some acc
  | '_' :: c :: rest =>
      if c.isDigit then pyIntDigits (acc * 10 + (c.toNat - 48)) rest else none
  | c :: rest =>
      if c.isDigit then pyIntDigits (acc * 10 + (c.toNat - 48)) rest else none

/-- Digits with a required leading digit. -/
def pyIntBody : List Char → Option Nat
  | c :: rest => if c.isDigit then pyIntDigits (c.toNat - 48) rest else none
  | [] => none

/-- Python `int(s)`, `none` when `int` raises `ValueError`. -/
def pyInt (s : String) : Option Int :=
  let cs := (s.toList.dropWhile pyWS).reverse.dropWhile pyWS |>.reverse
  match cs with
  | '-' :: rest => (pyIntBody rest).map (fun n => -(n : Int))
  | '+' :: rest => (pyIntBody rest).map (fun n => (n : Int))
  | _ => (pyIntBody cs).map (fun n => (n : Int))

/-- `request_header_get(headers, 'content-length', int)`: a missing header
gives `None` (and `int(None)` raises, caught to `None`); a present header is
cast, with a failed cast caught to `None`. -/
def headerCastInt : Option String → Option Int
  | none => none
  | some s => pyInt s

/-- The streaming loop of `request_download`: read chunks until an empty
read, emitting `Read`, writing, emitting `Wrote`, then emit the final
`Done`.  Returns the trace suffix and the final `size`. -/
def dlLoop (offset : Nat) (total : Option Int) : List Nat → Nat → List Act × Nat
  | [], size => ([.emit ⟨.done, offset, 0, size, total⟩], size)
  | added :: rest, size =>
      if added = 0 then ([.emit ⟨.done, offset, 0, size, total⟩], size)
      else
        let size' := size + added
        let (acts, fin) := dlLoop offset total rest size'
        (.emit ⟨.read, offset, added, size', total⟩ ::
         .fwrite added ::
         .emit ⟨.wrote, offset, added, size', total⟩ :: acts, fin)

/-- `Main.request_download(url, dest, progress, cont)`.  `fileSize0` is the
size the destination file has once opened (`fp.tell()` right after an
append-mode open; opening with `'wb'` truncates, and the code then uses
offset 0).  Returns the trace, the number of bytes written to the file, and
either an error or the value the Python function returns — `some` record on
the normal path, `none` (Python `None`) on the early 416 return. -/
def request_download (parseDate : String → Option Int) (resp : Resp)
    (cont : Bool) (fileSize0 : Nat) :
    List Act × Nat × Except DLErr (Option DLResult) :=
  let offset := if cont then fileSize0 else 0
  let continued := cont && decide (0 < offset)
  let status := if continued then 206 else 200
  let headers :=
    if continued then
      [("User-Agent", ""), ("Range", "bytes=" ++ toString offset ++ "-")]
    else [("User-Agent", "")]
  let pre : List Act := [.emit ⟨.start, offset, 0, offset, none⟩, .request headers]
  if continued && decide (resp.code = 416) then
    (pre ++ [.emit ⟨.done, offset, 0, offset, some (offset : Int)⟩], 0, .ok none)
  else if resp.code ≠ status then
    (pre, 0, .error .status)
  else
    let contentLength := headerCastInt resp.contentLength
    let modifiedRes : Except DLErr (Option Int) :=
      match resp.lastModified with
      | some s =>
          if s ≠ "" then
            match parseDate s with
            | some t => .ok (some t)
            | none => .error .date
          else .ok none
      | none => .ok none
    match modifiedRes with
    | .error e => (pre, 0, .error e)
    | .ok modified =>
        let total := contentLength.map (fun cl => (offset : Int) + cl)
        let loop := dlLoop offset total resp.chunks offset
        (pre ++ loop.1, loop.2 - offset, .ok (some ⟨total, modified⟩))

/-! ### The orchestrator (`Main.download`)

`Main.download` sequences: optional early existence check for an explicit
output name, page fetch and link derivation, late existence check, download
to a dot-prefixed temporary sibling (always with `cont=True`), size
verification (deleting the temp file on mismatch), optional mtime setting,
and the final rename.  The filesystem is abstracted as a finite map from
paths to file sizes; logging is not modelled; `os.utime` does not change
sizes and is a no-op here. -/

/-- The abstract filesystem: association list from path to size. -/
abbrev World : Type := List (String × Nat)

/-- `os.stat`, `None` for a missing path (`Main.stat`). -/
def fsStat (w : World) (p : String) : Option Nat := w.lookup p

/-- Remove a path. -/
def fsRemove (w : World) (p : String) : World := w.filter (fun kv => kv.1 ≠ p)

/-- Create or overwrite a path with a given size. -/
def fsSet (w : World) (p : String) (n : Nat) : World := (p, n) :: fsRemove w p

/-- `os.path.join` for one component: an absolute component replaces the
head; an empty or slash-terminated head is prepended directly; otherwise a
slash is inserted. -/
def pjoin (d f : String) : String :=
  if f.toList.head? = some '/' then f
  else if d = "" then f
  else if d.toList.getLast? = some '/' then d ++ f
  else d ++ "/" ++ f

/-- The options `Main.download` reads: positional FILE, `--dir`, `--mtime`. -/
structure Opts where
  file : Option String
  dir : Option String
  mtime : Bool

/-- The page-fetch environment: the requested URL, the response status of
the page request, and the HTML token events of the decoded body. -/
structure PageEnv where
  url : String
  pageCode : Nat
  pageEvents : List HEvent

/-- What `fetch_storage` returns. -/
structure Storage where
  url : String
  name : String
deriving DecidableEq

/-- Errors of the orchestrated run, one per raise site. -/
inductive Err
  | alreadyExists  -- assert_not_exists
  | badPageStatus  -- assert_status_code on the page fetch
  | parseFail      -- parse_storage raised
  | dlStatus       -- assert_status_code on the download
  | dlDate         -- mktime_tz raised
  | typeErr        -- dlinfo['size'] with dlinfo None (the 416 return path)
  | sizeMismatch   -- download_verify_size
deriving DecidableEq

/-- `Main.create_out_dir`: the `--dir` option if truthy, else `''`. -/
def create_out_dir (o : Opts) : String :=
  match o.dir with
  | some d => if d ≠ "" then d else ""
  | none => ""

/-- `Main.create_file_name`: the FILE option if truthy, else the storage
name if storage was given. -/
def create_file_name (o : Opts) (storage : Option Storage) : Option String :=
  match o.file with
  | some f => if f ≠ "" then some f else storage.map Storage.name
  | none => storage.map Storage.name

/-- `Main.create_file_name_temp`: `'.%s.%s' % (__prog__, file_name)`. -/
def create_file_name_temp (file_name : String) : String :=
  ".zsdl.py." ++ file_name

/-- A very small model of `urllib.parse.urljoin`, sufficient for resolving
the derived href against the page URL: a protocol-relative href takes the
base scheme, an absolute-path href replaces everything after the authority,
an href with a scheme is taken as is, and a relative href replaces the last
base segment (no dot-segment normalization).  No claim inspects the joined
URL. -/
def urljoin (base href : String) : String :=
  match href.toList with
  | [] => base
  | '/' :: '/' :: _ =>
      String.mk (base.toList.take (base.toList.length - (dropScheme base.toList).length)) ++ href
  | '/' :: _ =>
      String.mk (base.toList.take
        (base.toList.length - (dropNetloc (dropScheme base.toList)).length)) ++ href
  | _ =>
      if (dropScheme href.toList).length ≠ href.toList.length then href
      else String.mk ((base.toList.reverse.dropWhile (fun c => c != '/')).reverse) ++ href

/-- `Main.fetch_storage`: one page request, status assertion, parse, and
resolution of the derived href against the page URL. -/
def fetch_storage (page : PageEnv) : List Act × Except Err Storage :=
  ([Act.request [("User-Agent", "")]],
   if page.pageCode ≠ 200 then .error .badPageStatus
   else
     match parse_storage page.pageEvents with
     | .error _ => .error .parseFail
     | .ok d => .ok ⟨urljoin page.url d.href, d.name⟩)

/-- The tail of `Main.download` after the late existence check: open and
stream to the temp path (`cont=True` always), then index the returned dict,
verify the size (removing the temp file on mismatch), set the mtime if
requested and known, and rename the temp file onto the destination. -/
def downloadTail (o : Opts) (parseDate : String → Option Int) (resp : Resp)
    (w0 : World) (facts : List Act) (fpath tpath : String) :
    List Act × World × Option Err :=
  let init := (fsStat w0 tpath).getD 0
  let dl := request_download parseDate resp true init
  let w2 := fsSet w0 tpath (init + dl.2.1)
  let tr := facts ++ dl.1
  match dl.2.2 with
  | .error .status => (tr, w2, some .dlStatus)
  | .error .date => (tr, w2, some .dlDate)
  | .ok none => (tr, w2, some .typeErr)
  | .ok (some r) =>
      let afterVerify : World × Option Err :=
        match r.size with
        | none => (w2, none)
        | some t =>
            if ((fsStat w2 tpath).getD 0 : Int) ≠ t then
              (fsRemove w2 tpath, some .sizeMismatch)
            else (w2, none)
      match afterVerify with
      | (w3, some e) => (tr, w3, some e)
      | (w3, none) =>
          -- os.utime (mtime requested and known) does not change sizes.
          let sz := (fsStat w3 tpath).getD 0
          (tr, fsSet (fsRemove w3 tpath) fpath sz, none)

/-- `Main.download`: the full orchestrated run. -/
def download (o : Opts) (page : PageEnv) (parseDate : String → Option Int)
    (resp : Resp) (w0 : World) : List Act × World × Option Err :=
  let out_dir := create_out_dir o
  let fn0 := create_file_name o none
  let earlyConflict :=
    match fn0 with
    | some n => (fsStat w0 (pjoin out_dir n)).isSome
    | none => false
  if earlyConflict then ([], w0, some .alreadyExists)
  else
    let fetched := fetch_storage page
    match fetched.2 with
    | .error e => (fetched.1, w0, some e)
    | .ok storage =>
        let file_name := match fn0 with | some n => n | none => storage.name
        let fpath := pjoin out_dir file_name
        if (fsStat w0 fpath).isSome then (fetched.1, w0, some .alreadyExists)
        else
          let tpath := pjoin out_dir (create_file_name_temp file_name)
          downloadTail o parseDate resp w0 fetched.1 fpath tpath

/-! ### Parser-fold lemmas -/

/-- The jsdata survivor of a sequence of overwrites: the last match if any,
else the initial value. -/
def lastWins (j : Option JsData) (l : List JsData) : Option JsData :=
  l.foldl (fun _ g => some g) j

theorem foldl_handleEvent_jsdata :
    ∀ (evs : List HEvent) (b : Bool) (j : Option JsData),
    (evs.foldl handleEvent ⟨b, j⟩).jsdata = lastWins j (matchSets b evs) := by
  intro evs
  induction evs with
  | nil => intro b j; rfl
  | cons e r ih =>
    intro b j
    cases e with
    | startTag t =>
        simp only [List.foldl_cons, handleEvent, matchSets]
        exact ih _ j
    | endTag t =>
        simp only [List.foldl_cons, handleEvent, matchSets]
        exact ih b j
    | text d =>
        simp only [List.foldl_cons, handleEvent, matchSets]
        cases b with
        | false => exact ih false j
        | true =>
            simp only [if_true]
            cases jsregMatch (pyStrip d) with
            | some g => exact ih true (some g)
            | none => exact ih true j

theorem runParser_jsdata (evs : List HEvent) :
    (runParser evs).jsdata = lastWins none (matchSets false evs) :=
  foldl_handleEvent_jsdata evs false none

theorem lastWins_append_singleton (j : Option JsData) (gs : List JsData) (g : JsData) :
    lastWins j (gs ++ [g]) = some g := by
  simp [lastWins, List.foldl_append]

/-! ### Concrete documents used as witnesses -/

/-- The compact template script of the end-to-end scenario:
`a=42`, `str="asdasd"`, `start=0`, `length=3`, `power=3`,
head `"/d/uN1qu3/"`, tail `"/file.ext"`. -/
def script42 : String :=
  "var a = 42;x.omg = \"asdasd\".substr(0, 3);x.href = \"/d/uN1qu3/\"+(Math.pow(a, 3)+b)+\"/file.ext\";"

/-- Token events of a page holding `script42` in a script element. -/
def evs42 : List HEvent := [.startTag "script", .text script42]

/-- The groups the template match extracts from `script42`. -/
def g42 : JsData :=
  ⟨"42", "\"asdasd\"", "0", "3", "\"/d/uN1qu3/\"", "3", "\"/file.ext\""⟩

/-- C1: for a document whose single matching script template carries the
integer literal `a`, string `str`, substring start and length, and
exponent `power` (with `start ≤ length(str)`), the link derivation returns
an href equal to `urlHead ++ toString (a ^ power + min (length str - start)
length) ++ urlTail`, and a name equal to the last path segment of the
percent-decoded path of that href. -/
theorem parse_storage_formula (evs : List HEvent) (g : JsData)
    (a power s_start s_len : Nat) (strS hdS tlS : String)
    (hone : matchSets false evs = [g])
    (ha : js_decode g.a = .ok (.int (a : Int)))
    (hstr : js_decode g.str = .ok (.str strS))
    (hst : js_decode g.substr_start = .ok (.int (s_start : Int)))
    (hln : js_decode g.substr_length = .ok (.int (s_len : Int)))
    (hhd : js_decode g.url_head = .ok (.str hdS))
    (hpw : js_decode g.power = .ok (.int (power : Int)))
    (htl : js_decode g.url_tail = .ok (.str tlS))
    (hle : s_start ≤ strS.length) :
    parse_storage evs = .ok
      { href := hdS ++ toString ((a : Int) ^ power +
          min ((strS.length : Int) - (s_start : Int)) (s_len : Int)) ++ tlS,
        name := lastSegment (urlunquote (urlparsePath (hdS ++
          toString ((a : Int) ^ power +
            min ((strS.length : Int) - (s_start : Int)) (s_len : Int)) ++ tlS))) } := by
  have hj : (runParser evs).jsdata = some g := by
    rw [runParser_jsdata, hone]
    rfl
  simp only [parse_storage, hj, deriveFromGroups, ha, hstr, hst, hln, hhd, hpw, htl,
    pyStr, Int.toNat_natCast, if_pos (Int.natCast_nonneg power)]

/-! ### Download-loop lemmas -/

theorem getLast?_cons_of_ne_nil {α : Type} (a : α) {l : List α} (h : l ≠ []) :
    (a :: l).getLast? = l.getLast? := by
  cases l with
  | nil => exact absurd rfl h
  | cons b t => simp [List.getLast?_cons_cons]

theorem dlLoop_emits_offset (off : Nat) (total : Option Int) :
    ∀ (ch : List Nat) (sz : Nat), ∀ e ∈ emits (dlLoop off total ch sz).1, e.offset = off := by
  intro ch
  induction ch with
  | nil => intro sz e he; simp [dlLoop, emits] at he; subst he; rfl
  | cons added rest ih =>
    intro sz e he
    by_cases h0 : added = 0
    · subst h0; simp [dlLoop, emits] at he; subst he; rfl
    · simp only [dlLoop, if_neg h0] at he
      simp only [emits, List.filterMap_cons] at he
      simp only [emits] at ih
      simp at he
      rcases he with he | he | he
      · subst he; rfl
      · subst he; rfl
      · exact ih (sz + added) e (by simpa [emits] using he)

theorem dlLoop_emits_total (off : Nat) (total : Option Int) :
    ∀ (ch : List Nat) (sz : Nat), ∀ e ∈ emits (dlLoop off total ch sz).1, e.total = total := by
  intro ch
  induction ch with
  | nil => intro sz e he; simp [dlLoop, emits] at he; subst he; rfl
  | cons added rest ih =>
    intro sz e he
    by_cases h0 : added = 0
    · subst h0; simp [dlLoop, emits] at he; subst he; rfl
    · simp only [dlLoop, if_neg h0] at he
      simp only [emits, List.filterMap_cons] at he
      simp at he
      rcases he with he | he | he
      · subst he; rfl
      · subst he; rfl
      · exact ih (sz + added) e (by simpa [emits] using he)

/-- The claim C7 pairing check: every `Read` is immediately followed by a
`Wrote` with the same `deltaBytes` and `currentTotal`. -/
def pairedReads : List PEvent → Bool
  | [] => true
  | e :: rest =>
      if e.kind == .read then
        match rest with
        | [] => false
        | e2 :: _ =>
            e2.kind == .wrote && e2.delta == e.delta && e2.current == e.current &&
            pairedReads rest
      else pairedReads rest

theorem dlLoop_emits_getLast (off : Nat) (total : Option Int) :
    ∀ (ch : List Nat) (sz : Nat),
      (emits (dlLoop off total ch sz).1).getLast? =
        some ⟨.done, off, 0, (dlLoop off total ch sz).2, total⟩ := by
  intro ch
  induction ch with
  | nil => intro sz; simp [dlLoop, emits]
  | cons added rest ih =>
    intro sz
    by_cases h0 : added = 0
    · subst h0; simp [dlLoop, emits]
    · have hne : emits (dlLoop off total rest (sz + added)).1 ≠ [] := by
        intro hnil
        have := ih (sz + added)
        rw [hnil] at this
        simp at this
      simp only [dlLoop, if_neg h0, emits, List.filterMap_cons]
      simp only [emits] at ih hne ⊢
      rw [getLast?_cons_of_ne_nil _ (by simpa using hne), getLast?_cons_of_ne_nil _ hne]
      exact ih (sz + added)

theorem dlLoop_pairedReads (off : Nat) (total : Option Int) :
    ∀ (ch : List Nat) (sz : Nat), pairedReads (emits (dlLoop off total ch sz).1) = true := by
  intro ch
  induction ch with
  | nil => intro sz; simp [dlLoop, emits, pairedReads]
  | cons added rest ih =>
    intro sz
    by_cases h0 : added = 0
    · subst h0; simp [dlLoop, emits, pairedReads]
    · simp only [dlLoop, if_neg h0, emits, List.filterMap_cons]
      simp only [pairedReads]
      simp only [emits] at ih
      simp [pairedReads, ih (sz + added)]

theorem dlLoop_chain (off : Nat) (total : Option Int) :
    ∀ (ch : List Nat) (sz : Nat),
      List.Chain' (· ≤ ·) (sz ::
        (((emits (dlLoop off total ch sz).1).filter
          (fun e => e.kind == .read || e.kind == .wrote)).map PEvent.current)) := by
  intro ch
  induction ch with
  | nil => intro sz; simp [dlLoop, emits]
  | cons added rest ih =>
    intro sz
    by_cases h0 : added = 0
    · subst h0; simp [dlLoop, emits]
    · simp only [dlLoop, if_neg h0, emits, List.filterMap_cons]
      simp only [emits] at ih
      simp only [List.filter_cons,
        show ((⟨.read, off, added, sz + added, total⟩ : PEvent).kind == EvKind.read ||
          (⟨.read, off, added, sz + added, total⟩ : PEvent).kind == EvKind.wrote) = true from rfl,
        show ((⟨.wrote, off, added, sz + added, total⟩ : PEvent).kind == EvKind.read ||
          (⟨.wrote, off, added, sz + added, total⟩ : PEvent).kind == EvKind.wrote) = true from rfl,
        if_true, List.map_cons]
      refine List.Chain'.cons (by omega) ?_
      refine List.Chain'.cons (by omega) ?_
      exact ih (sz + added)

/-! ### C3: which script element wins -/

/-- A matching script with `a=1`, head `"/d/A/"`, tail `"/f1"`. -/
def scriptA : String :=
  "var a = 1;x.omg = \"aa\".substr(0, 1);x.href = \"/d/A/\"+(Math.pow(a, 1)+b)+\"/f1\";"

/-- A matching script with `a=2`, head `"/d/B/"`, tail `"/f2"`. -/
def scriptB : String :=
  "var a = 2;x.omg = \"aa\".substr(0, 1);x.href = \"/d/B/\"+(Math.pow(a, 1)+b)+\"/f2\";"

/-- A document with two matching script elements, `scriptA` first. -/
def evsTwo : List HEvent :=
  [.startTag "script", .text scriptA, .startTag "script", .text scriptB]

/-- The groups captured from `scriptA`. -/
def gA : JsData := ⟨"1", "\"aa\"", "0", "1", "\"/d/A/\"", "1", "\"/f1\""⟩

/-- The groups captured from `scriptB`. -/
def gB : JsData := ⟨"2", "\"aa\"", "0", "1", "\"/d/B/\"", "1", "\"/f2\""⟩

/-- C3 counterexample: with two matching script elements the derivation does
not use the first match — the document with `scriptA` then `scriptB` yields
`scriptB`'s href `/d/B/3/f2`, while the first match alone yields
`/d/A/2/f1`. -/
theorem parse_storage_first_match_counterexample :
    parse_storage evsTwo = .ok ⟨"/d/B/3/f2", "f2"⟩ ∧
    parse_storage [.startTag "script", .text scriptA] = .ok ⟨"/d/A/2/f1", "f1"⟩ ∧
    (⟨"/d/B/3/f2", "f2"⟩ : DerivedLink) ≠ (⟨"/d/A/2/f1", "f1"⟩ : DerivedLink) := by
  refine ⟨?_, ?_, by decide⟩ <;> · set_option maxRecDepth 400000 in decide

/-- C3 (amended): every template match overwrites the stored fields, so the
derivation uses the last matching script element of the document; a
document whose matches are `gs ++ [g]` derives exactly what `g` alone
derives. -/
theorem parse_storage_uses_last_match (evs : List HEvent) (gs : List JsData) (g : JsData)
    (h : matchSets false evs = gs ++ [g]) :
    parse_storage evs = deriveFromGroups g := by
  unfold parse_storage
  rw [runParser_jsdata, h, lastWins_append_singleton]

/-- C3 witness: on the two-script document the matches are `[gA, gB]` and
the derivation equals the one computed from `gB`. -/
theorem parse_storage_uses_last_match_witness :
    matchSets false evsTwo = [gA, gB] ∧ parse_storage evsTwo = deriveFromGroups gB := by
  constructor
  · set_option maxRecDepth 400000 in decide
  · exact parse_storage_uses_last_match evsTwo [gA] gB
      (by set_option maxRecDepth 400000 in decide)

/-! ### C4: the resumed-416 path returns no result record -/

/-- C4: on the resumed path with a 416 response, `request_download` emits
`Done` with `currentTotal = expectedTotal = offset` but then executes a bare
`return`, producing Python `None` rather than the
`{expectedTotalSize, lastModified}` record; the caller `Main.download`
immediately subscripts the return value, so an orchestrated run on this
path raises a `TypeError` instead of completing. -/
theorem request_download_416_no_result :
    request_download (fun _ => none) ⟨416, none, none, []⟩ true 5 =
      ([.emit ⟨.start, 5, 0, 5, none⟩,
        .request [("User-Agent", ""), ("Range", "bytes=5-")],
        .emit ⟨.done, 5, 0, 5, some 5⟩], 0, .ok none) ∧
    (download ⟨none, none, false⟩ ⟨"http://zs.example/v/uN1qu3/file.html", 200, evs42⟩
        (fun _ => none) ⟨416, none, none, []⟩ [(".zsdl.py.file.ext", 5)]).2.2 =
      some .typeErr := by
  refine ⟨by decide, ?_⟩
  set_option maxRecDepth 400000 in decide

/-- C1 witness: the end-to-end scenario.  The document events `evs42` hold
the single matching template with `a=42`, `str="asdasd"`, `start=0`,
`length=3`, `power=3`, head `"/d/uN1qu3/"`, tail `"/file.ext"`; the derived
href is `/d/uN1qu3/74091/file.ext` (74091 = 42^3 + min(6-0,3)) and the
derived name is `file.ext`. -/
theorem parse_storage_formula_witness :
    matchSets false evs42 = [g42] ∧ (0 : Nat) ≤ "asdasd".length ∧
    parse_storage evs42 = .ok ⟨"/d/uN1qu3/74091/file.ext", "file.ext"⟩ := by
  refine ⟨?_, by decide, ?_⟩
  · set_option maxRecDepth 400000 in decide
  · rw [parse_storage_formula evs42 g42 42 3 0 3 "asdasd" "/d/uN1qu3/" "/file.ext"
      (by set_option maxRecDepth 400000 in decide)
      (by decide) (by decide) (by decide) (by decide) (by decide) (by decide) (by decide)
      (by decide)]
    decide

/-! ### C5: request headers and expected statuses -/

/-- C5: a fresh download (`resume=false`) sends no `Range` header, uses
offset 0 and expects status 200 (anything else raises); a resumed download
over `n > 0` existing bytes sends `Range: bytes=n-` and expects 206, with
416 the only other non-raising status. -/
theorem request_download_headers_status (pd : String → Option Int) (resp : Resp) (n : Nat) :
    ((request_download pd resp false n).1.take 2 =
        [.emit ⟨.start, 0, 0, 0, none⟩, .request [("User-Agent", "")]]) ∧
    (resp.code ≠ 200 → (request_download pd resp false n).2.2 = .error .status) ∧
    (0 < n →
      ((request_download pd resp true n).1.take 2 =
          [.emit ⟨.start, n, 0, n, none⟩,
           .request [("User-Agent", ""), ("Range", "bytes=" ++ toString n ++ "-")]]) ∧
      (resp.code ≠ 206 → resp.code ≠ 416 →
        (request_download pd resp true n).2.2 = .error .status)) := by
  refine ⟨?_, ?_, fun hn => ⟨?_, ?_⟩⟩
  · simp only [request_download, Bool.false_and, Bool.and_self, if_false]
    split
    · simp_all
    · split
      · simp
      · split <;> simp
  · intro hc
    simp [request_download, hc]
  · have h1 : (decide (0 < n)) = true := by simpa using hn
    simp only [request_download, h1, Bool.and_true, Bool.true_and, if_true]
    split
    · simp
    · split
      · simp
      · split <;> simp
  · intro h206 h416
    have h1 : (decide (0 < n)) = true := by simpa using hn
    simp [request_download, h1, h206, h416]

/-- C5 witness: with a 500 response, a fresh call sends exactly the bare
user-agent header and raises; a resumed call over 3 bytes sends the range
header and raises. -/
theorem request_download_headers_status_witness :
    ((request_download (fun _ => none) ⟨500, none, none, []⟩ false 3).2.2 = .error .status) ∧
    ((request_download (fun _ => none) ⟨500, none, none, []⟩ true 3).1.take 2 =
      [.emit ⟨.start, 3, 0, 3, none⟩,
       .request [("User-Agent", ""), ("Range", "bytes=" ++ toString 3 ++ "-")]]) ∧
    ((request_download (fun _ => none) ⟨500, none, none, []⟩ true 3).2.2 = .error .status) := by
  have h := request_download_headers_status (fun _ => none) ⟨500, none, none, []⟩ 3
  exact ⟨h.2.1 (by decide), (h.2.2 (by decide)).1, (h.2.2 (by decide)).2 (by decide) (by decide)⟩

/-! ### Engine trace classification -/

theorem request_download_cases (pd : String → Option Int) (resp : Resp)
    (cont : Bool) (n : Nat) :
    request_download pd resp cont n =
        ([.emit ⟨.start, (if cont then n else 0), 0, (if cont then n else 0), none⟩,
          .request (if cont && decide (0 < (if cont then n else 0)) then
              [("User-Agent", ""), ("Range", "bytes=" ++ toString (if cont then n else 0) ++ "-")]
            else [("User-Agent", "")]),
          .emit ⟨.done, (if cont then n else 0), 0, (if cont then n else 0),
             some ((if cont then n else 0 : Nat) : Int)⟩], 0, .ok none) ∨
    (∃ er, request_download pd resp cont n =
        ([.emit ⟨.start, (if cont then n else 0), 0, (if cont then n else 0), none⟩,
          .request (if cont && decide (0 < (if cont then n else 0)) then
              [("User-Agent", ""), ("Range", "bytes=" ++ toString (if cont then n else 0) ++ "-")]
            else [("User-Agent", "")])], 0, .error er)) ∨
    (∃ mo, request_download pd resp cont n =
        (.emit ⟨.start, (if cont then n else 0), 0, (if cont then n else 0), none⟩ ::
         .request (if cont && decide (0 < (if cont then n else 0)) then
              [("User-Agent", ""), ("Range", "bytes=" ++ toString (if cont then n else 0) ++ "-")]
            else [("User-Agent", "")]) ::
         (dlLoop (if cont then n else 0)
            ((headerCastInt resp.contentLength).map
              (fun cl => ((if cont then n else 0 : Nat) : Int) + cl))
            resp.chunks (if cont then n else 0)).1,
         (dlLoop (if cont then n else 0)
            ((headerCastInt resp.contentLength).map
              (fun cl => ((if cont then n else 0 : Nat) : Int) + cl))
            resp.chunks (if cont then n else 0)).2 - (if cont then n else 0),
         .ok (some ⟨(headerCastInt resp.contentLength).map
              (fun cl => ((if cont then n else 0 : Nat) : Int) + cl), mo⟩))) := by
  simp only [request_download]
  repeat' split
  all_goals first
    | exact Or.inl rfl
    | exact Or.inr (Or.inl ⟨_, rfl⟩)
    | exact Or.inr (Or.inr ⟨_, rfl⟩)

/-! ### C6: offset fixed per call, currentTotal monotone -/

/-- C6: within one `request_download` call the offset is fixed at call
start (0 for a fresh call, the on-disk size when resuming), every emitted
event carries that offset, and the `currentTotal` values of the Read/Wrote
events are monotonically non-decreasing starting from the offset. -/
theorem request_download_offset_monotone (pd : String → Option Int) (resp : Resp)
    (cont : Bool) (n : Nat) :
    (∀ e ∈ emits (request_download pd resp cont n).1, e.offset = if cont then n else 0) ∧
    List.Chain' (· ≤ ·) ((if cont then n else 0) ::
      ((emits (request_download pd resp cont n).1).filter
        (fun e => e.kind == .read || e.kind == .wrote)).map PEvent.current) := by
  rcases request_download_cases pd resp cont n with hc | ⟨er, hc⟩ | ⟨mo, hc⟩
  · constructor
    · intro e he
      rw [hc] at he
      simp [emits] at he
      rcases he with he | he <;> subst he <;> rfl
    · rw [hc]
      simp [emits, List.filter_cons]
  · constructor
    · intro e he
      rw [hc] at he
      simp [emits] at he
      subst he; rfl
    · rw [hc]
      simp [emits, List.filter_cons]
  · constructor
    · intro e he
      rw [hc] at he
      simp [emits] at he
      rcases he with he | he
      · subst he; rfl
      · exact dlLoop_emits_offset _ _ resp.chunks _ e (by simpa [emits] using he)
    · rw [hc]
      simp only [emits, List.filterMap_cons]
      simp only [List.filter_cons, show ((⟨.start, if cont then n else 0, 0,
          if cont then n else 0, none⟩ : PEvent).kind == EvKind.read ||
          (⟨.start, if cont then n else 0, 0, if cont then n else 0, none⟩ :
          PEvent).kind == EvKind.wrote) = false from by cases cont <;> rfl]
      simp only [Bool.false_eq_true, if_false]
      have := dlLoop_chain (if cont then n else 0)
        ((headerCastInt resp.contentLength).map
          (fun cl => ((if cont then n else 0 : Nat) : Int) + cl))
        resp.chunks (if cont then n else 0)
      simpa [emits] using this

/-! ### C7: event ordering of a completed call -/

/-- C7: a call that completes without raising emits `Start` first (before
the network request), ends with a `Done` carrying `deltaBytes = 0`, and
every `Read` is immediately followed by its paired `Wrote` with the same
`deltaBytes` and `currentTotal`. -/
theorem request_download_event_order (pd : String → Option Int) (resp : Resp)
    (cont : Bool) (n : Nat) (r : Option DLResult)
    (h : (request_download pd resp cont n).2.2 = .ok r) :
    (∃ hs rest, (request_download pd resp cont n).1 =
        .emit ⟨.start, (if cont then n else 0), 0, (if cont then n else 0), none⟩ ::
        .request hs :: rest) ∧
    (∃ fin tot, (emits (request_download pd resp cont n).1).getLast? =
        some ⟨.done, (if cont then n else 0), 0, fin, tot⟩) ∧
    pairedReads (emits (request_download pd resp cont n).1) = true := by
  rcases request_download_cases pd resp cont n with hc | ⟨er, hc⟩ | ⟨mo, hc⟩
  · exact ⟨⟨_, _, by rw [hc]⟩, ⟨_, _, by rw [hc]; rfl⟩, by rw [hc]; rfl⟩
  · rw [hc] at h
    simp at h
  · refine ⟨⟨_, _, by rw [hc]⟩, ?_, ?_⟩
    · have hl := dlLoop_emits_getLast (if cont then n else 0)
        ((headerCastInt resp.contentLength).map
          (fun cl => ((if cont then n else 0 : Nat) : Int) + cl))
        resp.chunks (if cont then n else 0)
      refine ⟨(dlLoop (if cont then n else 0)
          ((headerCastInt resp.contentLength).map
            (fun cl => ((if cont then n else 0 : Nat) : Int) + cl))
          resp.chunks (if cont then n else 0)).2,
        (headerCastInt resp.contentLength).map
          (fun cl => ((if cont then n else 0 : Nat) : Int) + cl), ?_⟩
      rw [hc]
      simp only [emits, List.filterMap_cons]
      rw [getLast?_cons_of_ne_nil]
      · exact hl
      · intro hnil
        simp only [emits] at hl
        rw [hnil] at hl
        simp at hl
    · rw [hc]
      simp only [emits, List.filterMap_cons]
      have hp := dlLoop_pairedReads (if cont then n else 0)
        ((headerCastInt resp.contentLength).map
          (fun cl => ((if cont then n else 0 : Nat) : Int) + cl))
        resp.chunks (if cont then n else 0)
      simp only [emits] at hp
      simpa [pairedReads] using hp

/-! ### C10: an unparseable content-length behaves as an absent one -/

/-- C10: when the response carries a `content-length` header that `int()`
rejects, the cast is caught to `None`: the call behaves exactly as if the
header were absent, and on a completed call the returned
`expectedTotalSize` is `None` and every emitted event carries
`expectedTotal = None`. -/
theorem request_download_bad_content_length (pd : String → Option Int) (resp : Resp)
    (cont : Bool) (n : Nat) (s : String)
    (hcl : resp.contentLength = some s) (hbad : pyInt s = none) :
    request_download pd resp cont n =
      request_download pd { resp with contentLength := none } cont n ∧
    (∀ r, (request_download pd resp cont n).2.2 = .ok (some r) →
      r.size = none ∧ ∀ e ∈ emits (request_download pd resp cont n).1, e.total = none) := by
  have hnone : headerCastInt resp.contentLength = none := by
    rw [hcl]
    exact hbad
  constructor
  · obtain ⟨code, cl, lm, ch⟩ := resp
    simp only at hcl
    subst hcl
    simp only [headerCastInt] at hnone
    simp [request_download, headerCastInt, hnone]
  · intro r hr
    rcases request_download_cases pd resp cont n with hc | ⟨er, hc⟩ | ⟨mo, hc⟩
    · rw [hc] at hr
      simp at hr
    · rw [hc] at hr
      simp at hr
    · rw [hc] at hr
      simp only [hnone, Option.map_none'] at hc hr
      constructor
      · cases hr
        rfl
      · intro e he
        rw [hc] at he
        simp [emits] at he
        rcases he with he | he
        · subst he; rfl
        · have := dlLoop_emits_total (if cont then n else 0) none resp.chunks
            (if cont then n else 0) e (by simpa [emits] using he)
          simpa using this

/-- C7 witness: a fresh completed two-chunk download has Start first, Done
(with zero delta) last, and paired Read/Wrote events. -/
theorem request_download_event_order_witness :
    (∃ hs rest, (request_download (fun _ => none) ⟨200, some "10", none, [4, 6]⟩ false 0).1 =
        .emit ⟨.start, 0, 0, 0, none⟩ :: .request hs :: rest) ∧
    (∃ fin tot, (emits (request_download (fun _ => none) ⟨200, some "10", none, [4, 6]⟩ false 0).1).getLast? =
        some ⟨.done, 0, 0, fin, tot⟩) ∧
    pairedReads (emits (request_download (fun _ => none) ⟨200, some "10", none, [4, 6]⟩ false 0).1) = true := by
  have h := request_download_event_order (fun _ => none) ⟨200, some "10", none, [4, 6]⟩
    false 0 (some ⟨some 10, none⟩) (by decide)
  simpa using h

/-- C10 witness: a response with `content-length: abc` behaves as one with
no `content-length` at all, and the completed call reports a null size with
null totals throughout. -/
theorem request_download_bad_content_length_witness :
    pyInt "abc" = none ∧
    request_download (fun _ => none) ⟨200, some "abc", none, [5]⟩ false 0 =
      request_download (fun _ => none) ⟨200, none, none, [5]⟩ false 0 ∧
    (∀ r, (request_download (fun _ => none) ⟨200, some "abc", none, [5]⟩ false 0).2.2 =
        .ok (some r) →
      r.size = none ∧
      ∀ e ∈ emits (request_download (fun _ => none) ⟨200, some "abc", none, [5]⟩ false 0).1,
        e.total = none) := by
  have h := request_download_bad_content_length (fun _ => none)
    ⟨200, some "abc", none, [5]⟩ false 0 "abc" rfl (by decide)
  exact ⟨by decide, h.1, h.2⟩

/-! ### Filesystem-map lemmas -/

theorem fsStat_fsSet_self (w : World) (p : String) (n : Nat) :
    fsStat (fsSet w p n) p = some n := by
  simp [fsStat, fsSet, List.lookup]

theorem fsStat_fsRemove_self (w : World) (p : String) :
    fsStat (fsRemove w p) p = none := by
  induction w with
  | nil => rfl
  | cons kv t ih =>
    by_cases h : kv.1 = p
    · simpa [fsRemove, h] using ih
    · simpa [fsRemove, List.filter_cons, h, fsStat, List.lookup, bne_iff_ne,
        show ¬(p == kv.1) = true from by simpa using fun he => h he.symm] using ih

theorem fsStat_fsRemove_none (w : World) (p q : String) (h : fsStat w q = none) :
    fsStat (fsRemove w p) q = none := by
  induction w with
  | nil => rfl
  | cons kv t ih =>
    simp only [fsStat, List.lookup] at h
    by_cases hq : (q == kv.1) = true
    · rw [hq] at h
      simp at h
    · have hq' : (q == kv.1) = false := by simpa using hq
      rw [hq'] at h
      have hrec := ih h
      by_cases hp : kv.1 = p <;>
        simp [fsRemove, List.filter_cons, hp, fsStat, List.lookup, hq'] at hrec ⊢ <;>
        first
          | exact hrec
          | simpa [fsStat, fsRemove] using hrec

theorem fsStat_fsSet_ne (w : World) (p q : String) (n : Nat) (h : q ≠ p) :
    fsStat (fsSet w p n) q = fsStat (fsRemove w p) q := by
  simp only [fsSet, fsStat, List.lookup, show (q == p) = false from by simpa using h]

/-! ### C9: explicit-name conflict fails before any network activity -/

/-- C9: when an explicit (truthy) output file name is given and the joined
target path already exists, the orchestrated run fails immediately with the
already-exists error: the returned action trace is empty, so no HTTP
request of any kind was issued. -/
theorem download_early_exists (o : Opts) (page : PageEnv) (pd : String → Option Int)
    (resp : Resp) (w0 : World) (nm : String) (sz : Nat)
    (hf : o.file = some nm) (hne : nm ≠ "")
    (hex : fsStat w0 (pjoin (create_out_dir o) nm) = some sz) :
    download o page pd resp w0 = ([], w0, some .alreadyExists) := by
  have hfn : create_file_name o none = some nm := by
    simp [create_file_name, hf, hne]
  simp [download, hfn, hex]

/-- C9 witness: re-running against an existing `out.bin` fails with the
already-exists error and an empty action trace. -/
theorem download_early_exists_witness :
    download ⟨some "out.bin", none, false⟩ ⟨"u", 200, evs42⟩ (fun _ => none)
      ⟨200, none, none, []⟩ [("out.bin", 7)] = ([], [("out.bin", 7)], some .alreadyExists) :=
  download_early_exists ⟨some "out.bin", none, false⟩ ⟨"u", 200, evs42⟩ (fun _ => none)
    ⟨200, none, none, []⟩ [("out.bin", 7)] "out.bin" 7 rfl (by decide) (by decide)

/-! ### C8: size verification deletes the temp file; unknown size skips -/

/-- C8: when the server reported a total and the bytes on disk disagree,
the orchestrator deletes the temp file before raising the verification
error and the destination path is never created; when the total is unknown
the verification is skipped and the run completes without error. -/
theorem download_verification (o : Opts) (page : PageEnv) (pd : String → Option Int)
    (resp : Resp) (w0 : World) (strg : Storage) (r : DLResult)
    (fname fpath tpath : String) (init : Nat)
    (hfetch : (fetch_storage page).2 = .ok strg)
    (hname : (match create_file_name o none with | some m => m | none => strg.name) = fname)
    (hfp : fpath = pjoin (create_out_dir o) fname)
    (htp : tpath = pjoin (create_out_dir o) (create_file_name_temp fname))
    (hinit : init = (fsStat w0 tpath).getD 0)
    (hearly : ∀ m, create_file_name o none = some m →
        fsStat w0 (pjoin (create_out_dir o) m) = none)
    (hlate : fsStat w0 fpath = none)
    (hdl : (request_download pd resp true init).2.2 = .ok (some r)) :
    (∀ t : Int, r.size = some t →
        ((init + (request_download pd resp true init).2.1 : Nat) : Int) ≠ t →
      (download o page pd resp w0).2.2 = some .sizeMismatch ∧
      fsStat (download o page pd resp w0).2.1 tpath = none ∧
      fsStat (download o page pd resp w0).2.1 fpath = none) ∧
    (r.size = none → (download o page pd resp w0).2.2 = none) := by
  have hstep : download o page pd resp w0 =
      downloadTail o pd resp w0 (fetch_storage page).1 fpath tpath := by
    cases hcf : create_file_name o none with
    | some m =>
        simp only [hcf] at hname
        subst hname
        rw [hfp] at hlate
        simp [download, hcf, hearly m hcf, hfetch, hlate, hfp, htp]
    | none =>
        simp only [hcf] at hname
        subst hname
        rw [hfp] at hlate
        simp [download, hcf, hfetch, hlate, hfp, htp]
  rw [hstep]
  subst hinit
  constructor
  · intro t hsz hne
    simp only [downloadTail]
    rw [hdl]
    simp only [hsz]
    rw [fsStat_fsSet_self]
    simp only [Option.getD_some]
    rw [if_pos hne]
    refine ⟨rfl, ?_, ?_⟩
    · exact fsStat_fsRemove_self _ _
    · by_cases hqp : fpath = tpath
      · rw [hqp]
        exact fsStat_fsRemove_self _ _
      · exact fsStat_fsRemove_none _ _ _
          ((fsStat_fsSet_ne w0 tpath fpath _ hqp).trans
            (fsStat_fsRemove_none w0 tpath fpath hlate))
  · intro hsz
    simp only [downloadTail]
    rw [hdl]
    simp only [hsz]

/-- C8 witness: with a reported total of 1000 and only 998 bytes streamed,
the run ends in the size-mismatch error, the temp file `.zsdl.py.file.ext`
is gone and `file.ext` was never created; with no reported total the same
run completes without error. -/
theorem download_verification_witness :
    ((download ⟨none, none, false⟩ ⟨"http://zs.example/v/uN1qu3/file.html", 200, evs42⟩
        (fun _ => none) ⟨200, some "1000", none, [998]⟩ []).2.2 = some .sizeMismatch ∧
      fsStat (download ⟨none, none, false⟩ ⟨"http://zs.example/v/uN1qu3/file.html", 200, evs42⟩
        (fun _ => none) ⟨200, some "1000", none, [998]⟩ []).2.1 ".zsdl.py.file.ext" = none ∧
      fsStat (download ⟨none, none, false⟩ ⟨"http://zs.example/v/uN1qu3/file.html", 200, evs42⟩
        (fun _ => none) ⟨200, some "1000", none, [998]⟩ []).2.1 "file.ext" = none) ∧
    (download ⟨none, none, false⟩ ⟨"http://zs.example/v/uN1qu3/file.html", 200, evs42⟩
        (fun _ => none) ⟨200, none, none, [5]⟩ []).2.2 = none := by
  constructor
  · exact (download_verification ⟨none, none, false⟩
      ⟨"http://zs.example/v/uN1qu3/file.html", 200, evs42⟩ (fun _ => none)
      ⟨200, some "1000", none, [998]⟩ []
      ⟨"http://zs.example/d/uN1qu3/74091/file.ext", "file.ext"⟩ ⟨some 1000, none⟩
      "file.ext" "file.ext" ".zsdl.py.file.ext" 0
      (by set_option maxRecDepth 400000 in decide)
      (by decide) (by decide) (by decide) (by decide)
      (by intro m hm; cases hm) (by decide) (by decide)).1 1000 rfl (by decide)
  · exact (download_verification ⟨none, none, false⟩
      ⟨"http://zs.example/v/uN1qu3/file.html", 200, evs42⟩ (fun _ => none)
      ⟨200, none, none, [5]⟩ []
      ⟨"http://zs.example/d/uN1qu3/74091/file.ext", "file.ext"⟩ ⟨none, none⟩
      "file.ext" "file.ext" ".zsdl.py.file.ext" 0
      (by set_option maxRecDepth 400000 in decide)
      (by decide) (by decide) (by decide) (by decide)
      (by intro m hm; cases hm) (by decide) (by decide)).2 rfl

/-! ### C2: hex-escape decoding -/

/-- A character that passes unchanged through both the `re.sub` scan and
JSON string decoding: printable (or any scalar at or above space), not a
quote, not a backslash. -/
def plainChar (c : Char) : Bool := 32 ≤ c.toNat && c != '"' && c != '\\'

theorem tryX_none {cs : List Char} (h : cs.head? ≠ some '\\') : tryX cs = none := by
  unfold tryX
  split
  · exact absurd rfl h
  · rfl

theorem pairsThen_none {cs : List Char} (h : cs.head? ≠ some '\\') : pairsThen cs = none := by
  unfold pairsThen
  split
  · exact absurd rfl h
  · rw [tryX_none h]

theorem jsSubMatchAt_none {b : Bool} {c : Char} {cs : List Char}
    (hc : c ≠ '\\') (hcs : cs.head? ≠ some '\\') : jsSubMatchAt b (c :: cs) = none := by
  have h1 : pairsThen (c :: cs) = none := pairsThen_none (by simpa using hc)
  have h2 : pairsThen cs = none := pairsThen_none hcs
  unfold jsSubMatchAt
  cases b <;> simp [h1, h2, hc]

theorem jsSubMatchAt_esc (b : Bool) (c : Char) (hc : c ≠ '\\') (d : List Char) :
    jsSubMatchAt b (c :: '\\' :: 'x' :: '4' :: '1' :: d) = some ([c], 65, d) := by
  have h1 : pairsThen (c :: '\\' :: 'x' :: '4' :: '1' :: d) = none :=
    pairsThen_none (by simpa using hc)
  have h2 : pairsThen ('\\' :: 'x' :: '4' :: '1' :: d) = some ([], 65, d) := rfl
  unfold jsSubMatchAt
  cases b <;> simp [h1, h2, hc]

theorem jsSubGoF_irrel : ∀ (f1 f2 : Nat) (b : Bool) (cs : List Char),
    cs.length ≤ f1 → cs.length ≤ f2 → jsSubGoF f1 b cs = jsSubGoF f2 b cs := by
  intro f1
  induction f1 with
  | zero =>
    intro f2 b cs h1 h2
    have : cs = [] := List.eq_nil_of_length_eq_zero (by omega)
    subst this
    cases f2 <;> rfl
  | succ f1' ih =>
    intro f2 b cs h1 h2
    cases cs with
    | nil => cases f2 <;> rfl
    | cons c cs' =>
      obtain ⟨f2', rfl⟩ : ∃ k, f2 = k + 1 :=
        ⟨f2 - 1, by simp only [List.length_cons] at h2; omega⟩
      simp only [jsSubGoF]
      cases hm : jsSubMatchAt b (c :: cs') with
      | some t =>
          obtain ⟨p0, hh, rest⟩ := t
          have hlt := jsSubMatchAt_length hm
          simp only [List.length_cons] at h1 h2 hlt
          simp only [hm]
          rw [ih f2' false rest (by omega) (by omega)]
      | none =>
          simp only [List.length_cons] at h1 h2
          simp only [hm]
          rw [ih f2' false cs' (by omega) (by omega)]

theorem jsSubGoF_pass : ∀ (u : List Char) (f : Nat) (d : List Char),
    (∀ c ∈ u, plainChar c = true) → d.head? ≠ some '\\' → (u ++ d).length ≤ f →
    jsSubGoF f false (u ++ d) = u ++ jsSubGoF d.length false d := by
  intro u
  induction u with
  | nil =>
    intro f d hu hd hf
    simp only [List.nil_append] at hf ⊢
    exact jsSubGoF_irrel f d.length false d hf (Nat.le_refl _)
  | cons c u' ih =>
    intro f d hu hd hf
    have hc : plainChar c = true := hu c (by simp)
    have hcb : c ≠ '\\' := by
      simp only [plainChar, Bool.and_eq_true, bne_iff_ne, ne_eq] at hc
      exact hc.2
    obtain ⟨f', rfl⟩ : ∃ k, f = k + 1 :=
      ⟨f - 1, by simp only [List.cons_append, List.length_cons] at hf; omega⟩
    simp only [List.cons_append, jsSubGoF]
    have hm : jsSubMatchAt false (c :: (u' ++ d)) = none := by
      apply jsSubMatchAt_none hcb
      cases u' with
      | nil => simpa using hd
      | cons c2 u'' =>
          have hc2 : plainChar c2 = true := hu c2 (by simp)
          simp only [plainChar, Bool.and_eq_true, bne_iff_ne, ne_eq] at hc2
          simp only [List.cons_append, List.head?_cons, ne_eq, Option.some.injEq]
          intro hcc
          exact hc2.2 hcc
    rw [hm]
    rw [ih f' d (fun x hx => hu x (by simp [hx])) hd
      (by simp only [List.cons_append, List.length_cons] at hf; omega)]

theorem jsSubGoF_esc : ∀ (u : List Char) (f : Nat) (d : List Char),
    (∀ c ∈ u, plainChar c = true) → u ≠ [] →
    (u ++ '\\' :: 'x' :: '4' :: '1' :: d).length ≤ f →
    jsSubGoF f false (u ++ '\\' :: 'x' :: '4' :: '1' :: d) =
      u ++ 'A' :: jsSubGoF d.length false d := by
  intro u
  induction u with
  | nil => intro f d hu hne hf; exact absurd rfl hne
  | cons c u' ih =>
    intro f d hu hne hf
    have hc : plainChar c = true := hu c (by simp)
    have hcb : c ≠ '\\' := by
      simp only [plainChar, Bool.and_eq_true, bne_iff_ne, ne_eq] at hc
      exact hc.2
    obtain ⟨f', rfl⟩ : ∃ k, f = k + 1 :=
      ⟨f - 1, by simp only [List.cons_append, List.length_cons] at hf; omega⟩
    cases u' with
    | nil =>
      simp only [List.nil_append, List.cons_append, jsSubGoF]
      rw [jsSubMatchAt_esc false c hcb d]
      dsimp only
      rw [show jsonDumpChar 65 = ['A'] from rfl]
      simp only [List.cons_append, List.nil_append, List.singleton_append]
      congr 1
      simp only [List.cons_append, List.length_cons, List.nil_append] at hf
      exact congrArg (fun l => 'A' :: l)
        (jsSubGoF_irrel f' d.length false d (by omega) (Nat.le_refl _))
    | cons c2 u'' =>
      have hc2 : plainChar c2 = true := hu c2 (by simp)
      have hcb2 : c2 ≠ '\\' := by
        simp only [plainChar, Bool.and_eq_true, bne_iff_ne, ne_eq] at hc2
        exact hc2.2
      simp only [List.cons_append, jsSubGoF]
      have hm : jsSubMatchAt false (c :: c2 :: (u'' ++ '\\' :: 'x' :: '4' :: '1' :: d)) = none := by
        apply jsSubMatchAt_none hcb
        simp only [List.head?_cons, ne_eq, Option.some.injEq]
        intro hcc
        exact hcb2 hcc
      simp only [hm]
      have := ih (f') d (fun x hx => hu x (by simp [hx])) (by simp)
        (by simp only [List.cons_append, List.length_cons] at hf ⊢; omega)
      simp only [List.cons_append] at this
      rw [this]

theorem parseJStr_plain : ∀ (w r : List Char), (∀ c ∈ w, plainChar c = true) →
    parseJStr (w ++ '"' :: r) = some (w, r) := by
  intro w
  induction w with
  | nil => intro r h; rfl
  | cons c w' ih =>
    intro r h
    have hc : plainChar c = true := h c (by simp)
    simp only [plainChar, Bool.and_eq_true, bne_iff_ne, ne_eq] at hc
    obtain ⟨⟨h32, hq⟩, hb⟩ := hc
    have hrec := ih r (fun x hx => h x (by simp [hx]))
    simp only [List.cons_append]
    unfold parseJStr
    split
    · rename_i heq
      cases heq
    · rename_i heq
      injection heq with heq1 heq2
      exact absurd heq1 hq
    · rename_i heq
      injection heq with heq1 heq2
      exact absurd heq1 hb
    · rename_i c' rest hnq hnb hequ
      simp only [decide_eq_true_eq] at h32
      injection hequ with heq1 heq2
      subst heq1
      subst heq2
      rw [if_neg (by omega)]
      rw [hrec]
      rfl

theorem jsSubGoF_step (f : Nat) (b : Bool) (c : Char) (cs : List Char) :
    jsSubGoF (f + 1) b (c :: cs) =
      match jsSubMatchAt b (c :: cs) with
      | some (p0, hh, rest) => p0 ++ jsonDumpChar hh ++ jsSubGoF f false rest
      | none => c :: jsSubGoF f false cs := rfl

/-- C2 counterexample: the literal `"\x41\x42"` with consecutive escapes
does not decode like `"AB"`: the `re.sub` scan consumes the quote before
`\x41` as the required non-backslash prefix and resumes after `41`, so
`\x42` has no usable prefix character left and stays in the text, making
the subsequent JSON parse fail. -/
theorem js_decode_consecutive_escapes_counterexample :
    js_decode "\"\\x41\\x42\"" = .error () ∧
    js_decode "\"AB\"" = .ok (.str "AB") ∧
    js_decode "\"\\x41\\x42\"" ≠ js_decode "\"AB\"" :=
  ⟨by decide, by decide, by decide⟩

theorem json_decode_string (l : List Char) :
    json_decode (String.mk ('"' :: l)) =
      match parseJStr l with
      | some p =>
          if p.2.dropWhile jsonWS = [] then .ok (.str (String.mk p.1))
          else .error ()
      | none => .error () := by
  unfold json_decode
  rw [show (String.mk ('"' :: l)).toList = '"' :: l from rfl]
  rw [show ('"' :: l).dropWhile jsonWS = '"' :: l from rfl]
  dsimp only
  split
  · rename_i rest heq
    injection heq with h1 h2
    subst h2
    cases hp : parseJStr l with
    | none => rfl
    | some p =>
        obtain ⟨a, b⟩ := p
        rfl
  · rename_i x heq
    exact absurd rfl (heq l)

/-- C2 (amended): hex-escape decoding round-trips for an escape preceded by
a surviving non-backslash character: in a quoted literal of plain text, a
single `\x41` decodes exactly as if `A` stood in its place. -/
theorem js_decode_hex_escape_decodes (u v : List Char)
    (hu : ∀ c ∈ u, plainChar c = true) (hv : ∀ c ∈ v, plainChar c = true) :
    js_decode (String.mk ('"' :: (u ++ '\\' :: 'x' :: '4' :: '1' :: (v ++ ['"'])))) =
      .ok (.str (String.mk (u ++ 'A' :: v))) := by
  have hterm : jsSubGoF (['"'] : List Char).length false ['"'] = ['"'] := rfl
  have hsub : jsSubGoF ('"' :: (u ++ '\\' :: 'x' :: '4' :: '1' :: (v ++ ['"']))).length true
      ('"' :: (u ++ '\\' :: 'x' :: '4' :: '1' :: (v ++ ['"']))) =
      '"' :: (u ++ 'A' :: (v ++ ['"'])) := by
    rw [List.length_cons, jsSubGoF_step]
    cases u with
    | nil =>
      rw [show (([] : List Char) ++ '\\' :: 'x' :: '4' :: '1' :: (v ++ ['"'])) =
        '\\' :: 'x' :: '4' :: '1' :: (v ++ ['"']) from rfl]
      rw [jsSubMatchAt_esc true '"' (by decide) (v ++ ['"'])]
      dsimp only
      rw [show jsonDumpChar 65 = ['A'] from rfl]
      rw [jsSubGoF_pass v _ ['"'] hv (by simp)
        (by simp only [List.length_cons, List.length_append]; omega)]
      rw [hterm]
      simp
    | cons c u' =>
      have hc : plainChar c = true := hu c (by simp)
      have hcb : c ≠ '\\' := by
        simp only [plainChar, Bool.and_eq_true, bne_iff_ne, ne_eq] at hc
        exact hc.2
      rw [jsSubMatchAt_none (show ('"' : Char) ≠ '\\' from by decide)
        (by
          simp only [List.cons_append, List.head?_cons, ne_eq, Option.some.injEq]
          intro hcc
          exact hcb hcc)]
      dsimp only
      rw [jsSubGoF_esc (c :: u') _ (v ++ ['"']) hu (by simp) (Nat.le_refl _)]
      rw [jsSubGoF_pass v _ ['"'] hv (by simp) (Nat.le_refl _)]
      rw [hterm]
  unfold js_decode js_sub
  rw [show (String.mk ('"' :: (u ++ '\\' :: 'x' :: '4' :: '1' :: (v ++ ['"'])))).toList =
    '"' :: (u ++ '\\' :: 'x' :: '4' :: '1' :: (v ++ ['"'])) from rfl]
  rw [hsub]
  rw [json_decode_string]
  rw [show (u ++ 'A' :: (v ++ ['"'])) = (u ++ 'A' :: v) ++ '"' :: [] from by simp]
  rw [parseJStr_plain (u ++ 'A' :: v) []
    (by
      intro x hx
      simp only [List.mem_append, List.mem_cons] at hx
      rcases hx with hx | hx | hx
      · exact hu x hx
      · subst hx; decide
      · exact hv x hx)]
  rfl

/-- C2 witness: `"a\x41b"` decodes to `aAb`, matching the literal with `A`
in place of the escape. -/
theorem js_decode_hex_escape_decodes_witness :
    js_decode (String.mk ('"' :: (['a'] ++ '\\' :: 'x' :: '4' :: '1' :: (['b'] ++ ['"'])))) =
      .ok (.str (String.mk (['a'] ++ 'A' :: ['b']))) :=
  js_decode_hex_escape_decodes ['a'] ['b'] (by decide) (by decide)
